import Mathlib

/-!
Verification of the two computational cores of the Task-Flow repository:

* the employee performance scoring engine (`src/lib/performance.ts`), and
* the kanban drag-and-drop transition engine (the `KanbanBoard` component).

JavaScript numbers (rates, scores, epoch-millisecond timestamps) are embedded
as rationals; `Date` values are their `getTime()` epoch-millisecond readings.
The scoring engine reads the current wall clock (`new Date()`) when deciding
whether a non-completed task is overdue, so the embedding passes the current
time `now` as an explicit argument.  Task status is embedded as `String`
because the code must tolerate legacy (`done`) and unrecognized status values.
-/

namespace TaskFlow

/-- Profile rows (`src/types/database.ts`); fields the cores consume. -/
structure Profile where
  id : String
  email : String
  full_name : Option String
  avatar_url : Option String
deriving DecidableEq

/-- Task rows (`src/types/database.ts`); fields the cores consume.
Timestamps are epoch milliseconds; `start_time` and `finish_time` are
nullable in the schema. -/
structure Task where
  id : String
  assigned_user_id : String
  status : String
  start_time : Option ℚ
  finish_time : Option ℚ
  deadline : ℚ
  pending_approval : Bool
deriving DecidableEq

/-- One employee performance record (`EmployeePerformance` in
`src/lib/performance.ts`).  `performanceRating` is one of the four literal
strings the source assigns. -/
structure EmployeePerformance where
  id : String
  name : String
  avatar_url : Option String
  totalTasks : Nat
  completedTasks : Nat
  overdueTasks : Nat
  cancelledTasks : Int
  efficiency : ℚ
  avgCompletionTime : ℚ
  completionRate : ℚ
  punctualityRate : ℚ
  performanceScore : ℚ
  performanceRating : String
deriving DecidableEq

/-- JavaScript `parseFloat(x.toFixed(1))`: round to one decimal place. -/
def round1 (q : ℚ) : ℚ := (round (q * 10) : ℤ) / 10

/-- JavaScript `n || 0` on a number: `0` stays `0`, anything else is kept. -/
def jsOrZero (n : Int) : Int := if n = 0 then 0 else n

/-- JavaScript `profile.full_name || profile.email || 'Unknown User'`
(`||` treats both `null` and the empty string as falsy). -/
def displayName (p : Profile) : String :=
  match p.full_name with
  | some n => if n = "" then (if p.email = "" then "Unknown User" else p.email) else n
  | none => if p.email = "" then "Unknown User" else p.email

/-- `task.status === 'completed' && task.finish_time && finish <= deadline`
(the `tasksCompletedOnTime` filter predicate). -/
def completedOnTime (t : Task) : Bool :=
  decide (t.status = "completed") &&
    (match t.finish_time with
     | some f => decide (f ≤ t.deadline)
     | none => false)

/-- The `overdueTasks` filter predicate: a completed task is overdue when its
finish time exists and exceeds the deadline; a non-completed task is overdue
when the deadline lies before the current time. -/
def isOverdue (now : ℚ) (t : Task) : Bool :=
  if t.status = "completed" then
    match t.finish_time with
    | some f => decide (t.deadline < f)
    | none => false
  else
    decide (t.deadline < now) && !(decide (t.status = "completed"))

/-- `userTasks.length`. -/
def totalTasksOf (ts : List Task) : Nat := ts.length

/-- Count of tasks with `status === 'completed'`. -/
def completedTasksOf (ts : List Task) : Nat :=
  (ts.filter (fun t => decide (t.status = "completed"))).length

/-- Count of tasks with `status === 'in_progress'`. -/
def inProgressTasksOf (ts : List Task) : Nat :=
  (ts.filter (fun t => decide (t.status = "in_progress"))).length

/-- Count of tasks with `status === 'todo'`. -/
def todoTasksOf (ts : List Task) : Nat :=
  (ts.filter (fun t => decide (t.status = "todo"))).length

/-- Count of tasks with `status === 'in_review' || status === 'done'`. -/
def reviewTasksOf (ts : List Task) : Nat :=
  (ts.filter (fun t => decide (t.status = "in_review" ∨ t.status = "done"))).length

/-- `cancelledTasks = totalTasks - (completed + inProgress + todo + review)`;
the source computes this as a plain JS number subtraction, with no clamp. -/
def cancelledTasksOf (ts : List Task) : Int :=
  (totalTasksOf ts : Int) -
    ((completedTasksOf ts : Int) + (inProgressTasksOf ts : Int) +
      (todoTasksOf ts : Int) + (reviewTasksOf ts : Int))

/-- Count of overdue tasks at wall-clock time `now`. -/
def overdueTasksOf (now : ℚ) (ts : List Task) : Nat :=
  (ts.filter (isOverdue now)).length

/-- Count of tasks completed on time. -/
def onTimeTasksOf (ts : List Task) : Nat :=
  (ts.filter completedOnTime).length

/-- `efficiency = totalTasks > 0 ? tasksCompletedOnTime / totalTasks * 100 : 0`. -/
def efficiencyOf (ts : List Task) : ℚ :=
  if 0 < totalTasksOf ts then (onTimeTasksOf ts : ℚ) / (totalTasksOf ts : ℚ) * 100 else 0

/-- `completionRate = totalTasks > 0 ? completedTasks / totalTasks * 100 : 0`. -/
def completionRateOf (ts : List Task) : ℚ :=
  if 0 < totalTasksOf ts then (completedTasksOf ts : ℚ) / (totalTasksOf ts : ℚ) * 100 else 0

/-- `punctualityRate = completedTasks > 0 ? tasksCompletedOnTime / completedTasks * 100 : 0`. -/
def punctualityRateOf (ts : List Task) : ℚ :=
  if 0 < completedTasksOf ts then (onTimeTasksOf ts : ℚ) / (completedTasksOf ts : ℚ) * 100 else 0

/-- Durations in hours of the tasks having both `start_time` and
`finish_time` (the loop accumulating `totalCompletionTime` /
`completionTimeCount`); `getTime()` differences are divided by
`1000 * 60 * 60`. -/
def completionDurations (ts : List Task) : List ℚ :=
  ts.filterMap (fun t =>
    match t.start_time, t.finish_time with
    | some s, some f => some ((f - s) / (1000 * 60 * 60))
    | _, _ => none)

/-- `avgCompletionTime = count > 0 ? total / count : 0`. -/
def avgCompletionTimeOf (ts : List Task) : ℚ :=
  let ds := completionDurations ts
  if 0 < ds.length then ds.sum / (ds.length : ℚ) else 0

/-- `timeEfficiency = avgCompletionTime > 0 ? Math.max(0, 100 - avg * 5) : 100`. -/
def timeEfficiencyOf (ts : List Task) : ℚ :=
  if 0 < avgCompletionTimeOf ts then max 0 (100 - avgCompletionTimeOf ts * 5) else 100

/-- `cancellationRate = totalTasks > 0 ? (cancelledTasks || 0) / totalTasks * 100 : 0`. -/
def cancellationRateOf (ts : List Task) : ℚ :=
  if 0 < totalTasksOf ts then
    ((jsOrZero (cancelledTasksOf ts) : ℚ)) / (totalTasksOf ts : ℚ) * 100
  else 0

/-- The sequence of `score += ...` statements of the source, in order: the
weights `0.3`, `0.25`, `0.2`, `0.15`, `0.1` applied to completion rate,
punctuality rate, efficiency, time efficiency and the clamped cancellation
score. -/
def rawScoreOf (ts : List Task) : ℚ :=
  let s0 : ℚ := 0
  let s1 := s0 + completionRateOf ts * (3 / 10)
  let s2 := s1 + punctualityRateOf ts * (25 / 100)
  let s3 := s2 + efficiencyOf ts * (2 / 10)
  let s4 := s3 + timeEfficiencyOf ts * (15 / 100)
  let cancellationScore := 100 - cancellationRateOf ts
  s4 + max 0 cancellationScore * (1 / 10)

/-- The rating ladder of the source: `>= 85` excellent, `>= 70` good,
`>= 50` average, otherwise needs_improvement. -/
def ratingOf (score : ℚ) : String :=
  if 85 ≤ score then "excellent"
  else if 70 ≤ score then "good"
  else if 50 ≤ score then "average"
  else "needs_improvement"

/-- The record pushed onto `performanceData` for one user: counters as
computed, rates and the score run through `parseFloat(x.toFixed(1))`,
`cancelledTasks` through `|| 0`, the rating from the unrounded score. -/
def buildPerformance (now : ℚ) (userId : String) (userTasks : List Task)
    (profile : Profile) : EmployeePerformance :=
  { id := userId
    name := displayName profile
    avatar_url := profile.avatar_url
    totalTasks := totalTasksOf userTasks
    completedTasks := completedTasksOf userTasks
    overdueTasks := overdueTasksOf now userTasks
    cancelledTasks := jsOrZero (cancelledTasksOf userTasks)
    efficiency := round1 (efficiencyOf userTasks)
    avgCompletionTime := round1 (avgCompletionTimeOf userTasks)
    completionRate := round1 (completionRateOf userTasks)
    punctualityRate := round1 (punctualityRateOf userTasks)
    performanceScore := round1 (rawScoreOf userTasks)
    performanceRating := ratingOf (rawScoreOf userTasks) }

/-- The key order of the `tasksByUser` accumulator object: JS object string
keys enumerate in insertion order, i.e. in order of first occurrence of each
`assigned_user_id` in the task list. -/
def userIdsInOrder (tasks : List Task) : List String :=
  tasks.foldl
    (fun acc t => if acc.contains t.assigned_user_id then acc else acc ++ [t.assigned_user_id])
    []

/-- `tasksByUser[u]`: the tasks of user `u`, in list order (the `reduce`
pushes each task onto its user's bucket in traversal order). -/
def tasksOfUser (tasks : List Task) (u : String) : List Task :=
  tasks.filter (fun t => decide (t.assigned_user_id = u))

/-- The unsorted `performanceData` list: one record per user id in key
order, skipping users without a matching profile (`if (!profile) continue`). -/
def performanceRecords (now : ℚ) (tasks : List Task) (profiles : List Profile) :
    List EmployeePerformance :=
  (userIdsInOrder tasks).filterMap (fun u =>
    (profiles.find? (fun p => decide (p.id = u))).map
      (buildPerformance now u (tasksOfUser tasks u)))

/-- The descending-score ordering used by the final
`sort((a, b) => b.performanceScore - a.performanceScore)`: `a` may be placed
before `b` exactly when the comparator is `<= 0`. -/
def scoreGE (a b : EmployeePerformance) : Prop :=
  b.performanceScore ≤ a.performanceScore

instance : DecidableRel scoreGE := fun a b =>
  inferInstanceAs (Decidable (b.performanceScore ≤ a.performanceScore))

instance : IsTotal EmployeePerformance scoreGE :=
  ⟨fun a b => (le_total b.performanceScore a.performanceScore).imp id id⟩

instance : IsTrans EmployeePerformance scoreGE :=
  ⟨fun _ _ _ h1 h2 => le_trans h2 h1⟩

/-- `calculateEmployeePerformance` (`src/lib/performance.ts`): group tasks by
user, build one record per user with a profile, sort descending by score.
ECMAScript `Array.prototype.sort` is a stable sort, and insertion sort with
`scoreGE` is the stable sort for the comparator
`(a, b) => b.performanceScore - a.performanceScore`. -/
def calculateEmployeePerformance (tasks : List Task) (profiles : List Profile)
    (now : ℚ) : List EmployeePerformance :=
  (performanceRecords now tasks profiles).insertionSort scoreGE

/-!
The kanban transition engine (`KanbanBoard` component).  The board keeps a
local optimistic copy `localTasks` of the externally supplied `tasks` prop,
a role flag `isAdmin`, and reacts to drag events.  `onStatusChange` commits
are modelled as the optional `(taskId, newStatus)` value a handler emits.
-/

/-- The ids of the four rendered columns, in render order. -/
def columnIds : List String := ["todo", "in_progress", "in_review", "completed"]

/-- The five buckets of the `grouped` record in `tasksByStatus` (the four
column statuses plus the legacy `done` key the initializer also creates). -/
structure GroupedTasks where
  todo : List Task
  in_progress : List Task
  in_review : List Task
  completed : List Task
  done : List Task
deriving DecidableEq

/-- One step of the `localTasks.forEach` loop of `tasksByStatus`:
`if (grouped[task.status]) push` — the five initialized keys all hold arrays,
and an array (even empty) is truthy, so any of the five statuses lands in its
own bucket; only otherwise does the legacy fallback run, which would push a
`done` task onto `completed` but can never fire for `done` because the
`done` bucket exists. -/
def pushTask (g : GroupedTasks) (t : Task) : GroupedTasks :=
  if t.status = "todo" then { g with todo := g.todo ++ [t] }
  else if t.status = "in_progress" then { g with in_progress := g.in_progress ++ [t] }
  else if t.status = "in_review" then { g with in_review := g.in_review ++ [t] }
  else if t.status = "completed" then { g with completed := g.completed ++ [t] }
  else if t.status = "done" then { g with done := g.done ++ [t] }
  else if t.status = "done" then { g with completed := g.completed ++ [t] }
  else g

/-- `tasksByStatus`: group the local tasks into the five buckets. -/
def tasksByStatus (localTasks : List Task) : GroupedTasks :=
  localTasks.foldl pushTask ⟨[], [], [], [], []⟩

/-- The tasks the board renders in column `colId`: the render loop passes
`tasksByStatus[col.id]` for the four column ids only; the `done` bucket is
never rendered. -/
def displayedTasks (localTasks : List Task) (colId : String) : List Task :=
  if colId = "todo" then (tasksByStatus localTasks).todo
  else if colId = "in_progress" then (tasksByStatus localTasks).in_progress
  else if colId = "in_review" then (tasksByStatus localTasks).in_review
  else if colId = "completed" then (tasksByStatus localTasks).completed
  else []

/-- `findContainer`: a column id resolves to itself; otherwise look the id up
among the local tasks and map the legacy `done` status to `completed`. -/
def findContainer (localTasks : List Task) (id : String) : Option String :=
  if columnIds.contains id then some id
  else
    match localTasks.find? (fun t => decide (t.id = id)) with
    | some t => some (if t.status = "done" then "completed" else t.status)
    | none => none

/-- The `setLocalTasks` update of `handleDragOver`: replace the status of the
first task whose id matches (`findIndex` finds the first occurrence; if the
id is absent the list is returned unchanged). -/
def setTaskStatus (l : List Task) (id : String) (s : String) : List Task :=
  match l with
  | [] => []
  | t :: ts => if t.id = id then { t with status := s } :: ts else t :: setTaskStatus ts id s

/-- `handleDragOver`: with no hover target, or unresolved/equal containers,
do nothing; refuse when the source container is `completed`; refuse when a
non-admin targets `completed`; otherwise optimistically set the dragged
task's status to the destination container. -/
def handleDragOver (isAdmin : Bool) (localTasks : List Task) (activeId : String)
    (over : Option String) : List Task :=
  match over with
  | none => localTasks
  | some overId =>
    match findContainer localTasks activeId, findContainer localTasks overId with
    | some activeContainer, some overContainer =>
      if activeContainer = overContainer then localTasks
      else if activeContainer = "completed" then localTasks
      else if !isAdmin && decide (overContainer = "completed") then localTasks
      else setTaskStatus localTasks activeId overContainer
    | some _, none => localTasks
    | none, _ => localTasks

/-- `handleDragEnd`: returns the new local task list and the commit (if any)
passed to `onStatusChange`.  No drop target resets to the external `tasks`;
a failed guard resets to `tasks`; otherwise a commit is emitted exactly when
the dragged task's local status differs from its external status, keeping
the optimistic local copy. -/
def handleDragEnd (isAdmin : Bool) (tasks localTasks : List Task) (activeId : String)
    (over : Option String) : List Task × Option (String × String) :=
  match over with
  | none => (tasks, none)
  | some overId =>
    match findContainer localTasks activeId, findContainer localTasks overId with
    | some activeContainer, some overContainer =>
      if activeContainer = "completed" ∧ overContainer ≠ "completed" then (tasks, none)
      else if !isAdmin && decide (overContainer = "completed") then (tasks, none)
      else
        match localTasks.find? (fun t => decide (t.id = activeId)),
              tasks.find? (fun t => decide (t.id = activeId)) with
        | some finalTask, some originalTask =>
          if finalTask.status ≠ originalTask.status then
            (localTasks, some (activeId, finalTask.status))
          else (localTasks, none)
        | some _, none => (localTasks, none)
        | none, _ => (localTasks, none)
    | some _, none => (localTasks, none)
    | none, _ => (localTasks, none)

/-- The three drag events the board handles. -/
inductive DragEvent where
  | dragStart (id : String)
  | dragOver (activeId : String) (over : Option String)
  | dragEnd (activeId : String) (over : Option String)

/-- Board state during a session: the optimistic local copy and the commits
emitted so far (each a `(taskId, newStatus)` call to `onStatusChange`). -/
structure BoardState where
  localTasks : List Task
  commits : List (String × String)

/-- One event step.  `dragStart` only records the active id (no task
mutation); `dragOver` updates the local copy; `dragEnd` updates the local
copy and may emit one commit. -/
def stepEvent (isAdmin : Bool) (tasks : List Task) (s : BoardState) :
    DragEvent → BoardState
  | .dragStart _ => s
  | .dragOver a o => { s with localTasks := handleDragOver isAdmin s.localTasks a o }
  | .dragEnd a o =>
    let r := handleDragEnd isAdmin tasks s.localTasks a o
    { localTasks := r.1, commits := s.commits ++ r.2.toList }

/-- Run a sequence of drag events from a starting state. -/
def runEvents (isAdmin : Bool) (tasks : List Task) (s : BoardState)
    (es : List DragEvent) : BoardState :=
  es.foldl (stepEvent isAdmin tasks) s

/-- The status of the (first) task with the given id, if present. -/
def statusOf (l : List Task) (id : String) : Option String :=
  (l.find? (fun t => decide (t.id = id))).map (fun t => t.status)

/-!  Concrete records and spec-side definitions used by individual claims. -/

/-- The score formula exactly as the claim states it: weighted sum of the
rates, with the time-efficiency fallback and the clamped cancellation score. -/
def specScore (completionRate punctualityRate efficiency avgCompletionTime
    cancellationRate : ℚ) : ℚ :=
  (30 / 100) * completionRate + (25 / 100) * punctualityRate + (20 / 100) * efficiency +
    (15 / 100) * (if 0 < avgCompletionTime then max 0 (100 - avgCompletionTime * 5) else 100) +
    (10 / 100) * max 0 (100 - cancellationRate)

/-- The rating thresholds exactly as the claim states them. -/
def specRating (score : ℚ) : String :=
  if 85 ≤ score then "excellent"
  else if 70 ≤ score then "good"
  else if 50 ≤ score then "average"
  else "needs_improvement"

/-- Drop the only clock-dependent field of a record. -/
def eraseOverdue (r : EmployeePerformance) : EmployeePerformance :=
  { r with overdueTasks := 0 }

def c5Profile : Profile :=
  { id := "u1", email := "u1@x", full_name := some "User One", avatar_url := none }

/-- Completed on time, two hours of work (start and finish present). -/
def c5TaskA : Task :=
  { id := "a", assigned_user_id := "u1", status := "completed",
    start_time := some 0, finish_time := some 7200000, deadline := 7200000,
    pending_approval := false }

/-- Completed, no timestamps recorded. -/
def c5TaskB : Task :=
  { id := "b", assigned_user_id := "u1", status := "completed",
    start_time := none, finish_time := none, deadline := 1,
    pending_approval := false }

/-- Completed, no timestamps recorded. -/
def c5TaskC : Task :=
  { id := "c", assigned_user_id := "u1", status := "completed",
    start_time := none, finish_time := none, deadline := 1,
    pending_approval := false }

/-- Still to do, future deadline. -/
def c5TaskD : Task :=
  { id := "d", assigned_user_id := "u1", status := "todo",
    start_time := none, finish_time := none, deadline := 1,
    pending_approval := false }

def c5Tasks : List Task := [c5TaskA, c5TaskB, c5TaskC, c5TaskD]

def c6Profile : Profile :=
  { id := "v1", email := "v1@x", full_name := some "User V", avatar_url := none }

/-- An open task with deadline 5: overdue at time 10, not overdue at time 0. -/
def c6Task : Task :=
  { id := "t", assigned_user_id := "v1", status := "todo",
    start_time := none, finish_time := none, deadline := 5,
    pending_approval := false }

def wProfile : Profile :=
  { id := "wu", email := "w@x", full_name := some "W", avatar_url := none }

/-- A single completed task with no recorded timestamps. -/
def wTask : Task :=
  { id := "w", assigned_user_id := "wu", status := "completed",
    start_time := none, finish_time := none, deadline := 0,
    pending_approval := false }

/-- The report record produced for `wTask` alone. -/
def wRecord : EmployeePerformance :=
  { id := "wu", name := "W", avatar_url := none,
    totalTasks := 1, completedTasks := 1, overdueTasks := 0, cancelledTasks := 0,
    efficiency := 0, avgCompletionTime := 0, completionRate := 100,
    punctualityRate := 0, performanceScore := 55, performanceRating := "average" }

/-- A task carrying the legacy `done` status. -/
def doneTask : Task :=
  { id := "t1", assigned_user_id := "u1", status := "done",
    start_time := none, finish_time := none, deadline := 0,
    pending_approval := false }

/-- A plain `todo` task used to exercise the drag handlers. -/
def kTask : Task :=
  { id := "x", assigned_user_id := "u1", status := "todo",
    start_time := none, finish_time := none, deadline := 0,
    pending_approval := false }

/-- A task already completed, used to exercise the drag handlers. -/
def kDoneTask : Task :=
  { id := "y", assigned_user_id := "u1", status := "completed",
    start_time := none, finish_time := none, deadline := 0,
    pending_approval := false }

def c4TaskA : Task :=
  { id := "A", assigned_user_id := "u1", status := "todo",
    start_time := none, finish_time := none, deadline := 0,
    pending_approval := false }

def c4TaskB : Task :=
  { id := "B", assigned_user_id := "u1", status := "todo",
    start_time := none, finish_time := none, deadline := 0,
    pending_approval := false }

/-- The local optimistic copy of `c4TaskB` after an earlier gesture moved it
to `in_progress` (its commit not yet reflected in the external list). -/
def c4TaskBLocal : Task :=
  { id := "B", assigned_user_id := "u1", status := "in_progress",
    start_time := none, finish_time := none, deadline := 0,
    pending_approval := false }

def c4Tasks : List Task := [c4TaskA, c4TaskB]

def c4Local : List Task := [c4TaskA, c4TaskBLocal]

/-!  Helper lemmas for the scoring engine. -/

/-- Every record of the report is the record built for some grouped user id
whose profile lookup succeeded. -/
lemma mem_calc {tasks : List Task} {profiles : List Profile} {now : ℚ}
    {r : EmployeePerformance} (hr : r ∈ calculateEmployeePerformance tasks profiles now) :
    ∃ u prof, profiles.find? (fun p => decide (p.id = u)) = some prof ∧
      r = buildPerformance now u (tasksOfUser tasks u) prof := by
  rw [calculateEmployeePerformance, List.mem_insertionSort, performanceRecords,
    List.mem_filterMap] at hr
  obtain ⟨u, _, hmap⟩ := hr
  rw [Option.map_eq_some'] at hmap
  obtain ⟨prof, hfind, hbuild⟩ := hmap
  exact ⟨u, prof, hfind, hbuild.symm⟩

/-- Filtering with a stronger predicate yields at most as many elements. -/
lemma length_filter_le_of_imp {α : Type} (p q : α → Bool) (l : List α)
    (h : ∀ a, p a = true → q a = true) :
    (l.filter p).length ≤ (l.filter q).length := by
  induction l with
  | nil => simp
  | cons a t ih =>
    cases hp : p a with
    | true =>
      have hq := h a hp
      simp only [List.filter_cons, hp, hq, if_true, List.length_cons]
      exact Nat.succ_le_succ ih
    | false =>
      cases hq : q a with
      | true =>
        simp only [List.filter_cons, hp, hq, Bool.false_eq_true, if_false, if_true,
          List.length_cons]
        exact Nat.le_succ_of_le ih
      | false =>
        simp only [List.filter_cons, hp, hq, Bool.false_eq_true, if_false]
        exact ih

/-- The four recognized status counters never overcount the task list: the
four status predicates are mutually exclusive. -/
lemma sum_counts_le_total (ts : List Task) :
    completedTasksOf ts + inProgressTasksOf ts + todoTasksOf ts + reviewTasksOf ts ≤
      totalTasksOf ts := by
  induction ts with
  | nil => simp [completedTasksOf, inProgressTasksOf, todoTasksOf, reviewTasksOf, totalTasksOf]
  | cons t ts ih =>
    simp only [completedTasksOf, inProgressTasksOf, todoTasksOf, reviewTasksOf, totalTasksOf,
      List.filter_cons, List.length_cons] at ih ⊢
    by_cases h1 : t.status = "completed" <;>
      by_cases h2 : t.status = "in_progress" <;>
        by_cases h3 : t.status = "todo" <;>
          by_cases h4 : t.status = "in_review" ∨ t.status = "done" <;>
            simp_all <;> omega

/-- The raw cancelled-task difference is never negative. -/
lemma cancelledTasksOf_nonneg (ts : List Task) : 0 ≤ cancelledTasksOf ts := by
  have h := sum_counts_le_total ts
  unfold cancelledTasksOf
  omega

/-- `completedOnTime` implies status `completed`. -/
lemma completedOnTime_imp (t : Task) (h : completedOnTime t = true) :
    decide (t.status = "completed") = true := by
  unfold completedOnTime at h
  exact (Bool.and_eq_true _ _ ▸ h).1

lemma onTime_le_completed (ts : List Task) : onTimeTasksOf ts ≤ completedTasksOf ts :=
  length_filter_le_of_imp _ _ ts completedOnTime_imp

lemma completed_le_total (ts : List Task) : completedTasksOf ts ≤ totalTasksOf ts :=
  List.length_filter_le _ ts

lemma onTime_le_total (ts : List Task) : onTimeTasksOf ts ≤ totalTasksOf ts :=
  List.length_filter_le _ ts

/-- A ratio-percentage `a / b * 100` with `a ≤ b` lies in `[0, 100]`. -/
lemma rate_bounds {a b : Nat} (hb : 0 < b) (hab : a ≤ b) :
    0 ≤ (a : ℚ) / (b : ℚ) * 100 ∧ (a : ℚ) / (b : ℚ) * 100 ≤ 100 := by
  have hb' : (0 : ℚ) < (b : ℚ) := by exact_mod_cast hb
  constructor
  · positivity
  · have h1 : (a : ℚ) / (b : ℚ) ≤ 1 := by
      rw [div_le_one hb']
      exact_mod_cast hab
    calc (a : ℚ) / (b : ℚ) * 100 ≤ 1 * 100 :=
          mul_le_mul_of_nonneg_right h1 (by norm_num)
      _ = 100 := by norm_num

lemma completionRateOf_bounds (ts : List Task) :
    0 ≤ completionRateOf ts ∧ completionRateOf ts ≤ 100 := by
  unfold completionRateOf
  split
  · exact rate_bounds (by assumption) (completed_le_total ts)
  · norm_num

lemma punctualityRateOf_bounds (ts : List Task) :
    0 ≤ punctualityRateOf ts ∧ punctualityRateOf ts ≤ 100 := by
  unfold punctualityRateOf
  split
  · exact rate_bounds (by assumption) (onTime_le_completed ts)
  · norm_num

lemma efficiencyOf_bounds (ts : List Task) :
    0 ≤ efficiencyOf ts ∧ efficiencyOf ts ≤ 100 := by
  unfold efficiencyOf
  split
  · exact rate_bounds (by assumption) (onTime_le_total ts)
  · norm_num

/-- Rounding to one decimal keeps a value of `[0, 100]` inside `[0, 100]`. -/
lemma round1_bounds {q : ℚ} (h0 : 0 ≤ q) (h1 : q ≤ 100) :
    0 ≤ round1 q ∧ round1 q ≤ 100 := by
  unfold round1
  rw [round_eq]
  constructor
  · apply div_nonneg _ (by norm_num)
    have : (0 : ℤ) ≤ ⌊q * 10 + 1 / 2⌋ := Int.floor_nonneg.mpr (by linarith)
    exact_mod_cast this
  · rw [div_le_iff₀ (by norm_num : (0 : ℚ) < 10)]
    have h2 : ⌊q * 10 + 1 / 2⌋ ≤ ⌊(2001 : ℚ) / 2⌋ := Int.floor_mono (by linarith)
    have h3 : ⌊(2001 : ℚ) / 2⌋ = 1000 := by norm_num
    have h4 : ⌊q * 10 + 1 / 2⌋ ≤ (1000 : ℤ) := h3 ▸ h2
    calc ((⌊q * 10 + 1 / 2⌋ : ℤ) : ℚ) ≤ (1000 : ℚ) := by exact_mod_cast h4
      _ = 100 * 10 := by norm_num

/-- C7: every report record's `cancelledTasks` equals the total minus the sum
of the four recognized counters, which is never negative (the four status
predicates are mutually exclusive, so the clamp the spec asks for is
vacuously satisfied), for every input task list including lists with
unrecognized status values. -/
theorem c7_cancelled_tasks_nonneg (tasks : List Task) (profiles : List Profile) (now : ℚ)
    (r : EmployeePerformance) (hr : r ∈ calculateEmployeePerformance tasks profiles now) :
    r.cancelledTasks =
      max 0 ((r.totalTasks : ℤ) -
        ((r.completedTasks : ℤ) + (inProgressTasksOf (tasksOfUser tasks r.id) : ℤ) +
          (todoTasksOf (tasksOfUser tasks r.id) : ℤ) +
          (reviewTasksOf (tasksOfUser tasks r.id) : ℤ))) ∧
    0 ≤ r.cancelledTasks := by
  obtain ⟨u, prof, hfind, rfl⟩ := mem_calc hr
  refine ⟨?_, ?_⟩
  · have hnn := cancelledTasksOf_nonneg (tasksOfUser tasks u)
    have hmax : max 0 (cancelledTasksOf (tasksOfUser tasks u)) =
        cancelledTasksOf (tasksOfUser tasks u) := max_eq_right hnn
    simp only [buildPerformance]
    rw [show ((totalTasksOf (tasksOfUser tasks u) : ℤ) -
        ((completedTasksOf (tasksOfUser tasks u) : ℤ) +
          (inProgressTasksOf (tasksOfUser tasks u) : ℤ) +
          (todoTasksOf (tasksOfUser tasks u) : ℤ) +
          (reviewTasksOf (tasksOfUser tasks u) : ℤ))) =
        cancelledTasksOf (tasksOfUser tasks u) from rfl]
    rw [hmax]
    unfold jsOrZero
    split
    · omega
    · rfl
  · have hnn := cancelledTasksOf_nonneg (tasksOfUser tasks u)
    simp only [buildPerformance]
    unfold jsOrZero
    split
    · omega
    · exact hnn

/-- Inserting an element never disturbs the subsequence of records having a
given score: the insertion point lies strictly after every record of larger
score and strictly before every record of score at most the inserted one. -/
lemma filter_score_orderedInsert (q : ℚ) (x : EmployeePerformance)
    (l : List EmployeePerformance) :
    (List.orderedInsert scoreGE x l).filter (fun r => decide (r.performanceScore = q)) =
      ((x :: l).filter (fun r => decide (r.performanceScore = q))) := by
  induction l with
  | nil => rfl
  | cons b t ih =>
    by_cases hins : scoreGE x b
    · rw [List.orderedInsert_of_le _ _ hins]
    · simp only [List.orderedInsert, if_neg hins]
      have hlt : x.performanceScore < b.performanceScore := by
        unfold scoreGE at hins
        exact lt_of_not_le hins
      by_cases hx : x.performanceScore = q
      · have hb : b.performanceScore ≠ q := by
          intro hbq
          rw [hx] at hlt
          rw [hbq] at hlt
          exact lt_irrefl _ hlt
        simp only [List.filter_cons, decide_eq_true_eq, hx, hb, if_true, if_false] at ih ⊢
        simp only [ih, List.filter_cons, decide_eq_true_eq, hx, if_true]
      · simp only [List.filter_cons, decide_eq_true_eq, hx, if_false] at ih ⊢
        by_cases hb : b.performanceScore = q <;> simp [hb, ih]

/-- Insertion sorting by score preserves, for each score value, the
subsequence of records having that score. -/
lemma filter_score_insertionSort (q : ℚ) (l : List EmployeePerformance) :
    (l.insertionSort scoreGE).filter (fun r => decide (r.performanceScore = q)) =
      l.filter (fun r => decide (r.performanceScore = q)) := by
  induction l with
  | nil => rfl
  | cons a t ih =>
    rw [List.insertionSort, filter_score_orderedInsert]
    simp only [List.filter_cons]
    rw [ih]

/-- C8: the report is non-increasing in `performanceScore`; records of equal
score keep the order in which the unsorted `performanceData` list produced
them (stable sort); and re-sorting the report by score returns the identical
sequence. -/
theorem c8_sort_stable_idempotent (tasks : List Task) (profiles : List Profile) (now : ℚ) :
    List.Sorted (fun a b => b.performanceScore ≤ a.performanceScore)
      (calculateEmployeePerformance tasks profiles now) ∧
    (∀ q : ℚ, (calculateEmployeePerformance tasks profiles now).filter
        (fun r => decide (r.performanceScore = q)) =
      (performanceRecords now tasks profiles).filter
        (fun r => decide (r.performanceScore = q))) ∧
    (calculateEmployeePerformance tasks profiles now).insertionSort scoreGE =
      calculateEmployeePerformance tasks profiles now := by
  refine ⟨?_, ?_, ?_⟩
  · exact List.sorted_insertionSort scoreGE (performanceRecords now tasks profiles)
  · intro q
    exact filter_score_insertionSort q (performanceRecords now tasks profiles)
  · exact List.Sorted.insertionSort_eq
      (List.sorted_insertionSort scoreGE (performanceRecords now tasks profiles))

/-- The source's sequential `score += ...` accumulation computes the claim's
weighted-sum formula. -/
lemma rawScoreOf_eq_specScore (ts : List Task) :
    rawScoreOf ts = specScore (completionRateOf ts) (punctualityRateOf ts)
      (efficiencyOf ts) (avgCompletionTimeOf ts) (cancellationRateOf ts) := by
  unfold rawScoreOf specScore timeEfficiencyOf
  ring

lemma ratingOf_eq_specRating (s : ℚ) : ratingOf s = specRating s := rfl

/-- C5 (amended): every report record's `performanceScore` is the claim's
weighted-sum formula applied to the unrounded rates of that employee's task
set, rounded to one decimal place, and `performanceRating` is obtained from
the unrounded formula value by the claim's thresholds. -/
theorem c5_score_formula (tasks : List Task) (profiles : List Profile) (now : ℚ)
    (r : EmployeePerformance) (hr : r ∈ calculateEmployeePerformance tasks profiles now) :
    r.performanceScore = round1 (specScore (completionRateOf (tasksOfUser tasks r.id))
      (punctualityRateOf (tasksOfUser tasks r.id)) (efficiencyOf (tasksOfUser tasks r.id))
      (avgCompletionTimeOf (tasksOfUser tasks r.id))
      (cancellationRateOf (tasksOfUser tasks r.id))) ∧
    r.performanceRating = specRating (specScore (completionRateOf (tasksOfUser tasks r.id))
      (punctualityRateOf (tasksOfUser tasks r.id)) (efficiencyOf (tasksOfUser tasks r.id))
      (avgCompletionTimeOf (tasksOfUser tasks r.id))
      (cancellationRateOf (tasksOfUser tasks r.id))) := by
  obtain ⟨u, prof, hfind, rfl⟩ := mem_calc hr
  refine ⟨?_, ?_⟩
  · simp only [buildPerformance, rawScoreOf_eq_specScore]
  · simp only [buildPerformance, rawScoreOf_eq_specScore, ratingOf_eq_specRating]

/-- C9: every report record's `completionRate`, `punctualityRate` and
`efficiency` lie in `[0, 100]`, for every input task and profile list. -/
theorem c9_rates_in_range (tasks : List Task) (profiles : List Profile) (now : ℚ)
    (r : EmployeePerformance) (hr : r ∈ calculateEmployeePerformance tasks profiles now) :
    (0 ≤ r.completionRate ∧ r.completionRate ≤ 100) ∧
    (0 ≤ r.punctualityRate ∧ r.punctualityRate ≤ 100) ∧
    (0 ≤ r.efficiency ∧ r.efficiency ≤ 100) := by
  obtain ⟨u, prof, hfind, rfl⟩ := mem_calc hr
  simp only [buildPerformance]
  refine ⟨?_, ?_, ?_⟩
  · exact round1_bounds (completionRateOf_bounds _).1 (completionRateOf_bounds _).2
  · exact round1_bounds (punctualityRateOf_bounds _).1 (punctualityRateOf_bounds _).2
  · exact round1_bounds (efficiencyOf_bounds _).1 (efficiencyOf_bounds _).2

lemma eraseOverdue_build (n1 n2 : ℚ) (u : String) (ts : List Task) (prof : Profile) :
    eraseOverdue (buildPerformance n1 u ts prof) = eraseOverdue (buildPerformance n2 u ts prof) :=
  rfl

lemma map_eraseOverdue_records (tasks : List Task) (profiles : List Profile) (n1 n2 : ℚ) :
    (performanceRecords n1 tasks profiles).map eraseOverdue =
      (performanceRecords n2 tasks profiles).map eraseOverdue := by
  unfold performanceRecords
  rw [List.map_filterMap, List.map_filterMap]
  congr 1
  funext u
  cases hfind : profiles.find? (fun p => decide (p.id = u)) with
  | none => rfl
  | some prof =>
    simp only [Option.map_some']
    rw [eraseOverdue_build n1 n2]

/-- C6 (amended): the report is a deterministic pure function of the tasks,
the profiles and the evaluation instant; every field except the
clock-dependent `overdueTasks` counter is already determined by the tasks
and profiles alone. -/
theorem c6_deterministic_up_to_clock (tasks : List Task) (profiles : List Profile)
    (n1 n2 : ℚ) :
    (calculateEmployeePerformance tasks profiles n1).map eraseOverdue =
      (calculateEmployeePerformance tasks profiles n2).map eraseOverdue := by
  unfold calculateEmployeePerformance
  rw [List.map_insertionSort scoreGE scoreGE eraseOverdue _
      (fun a _ b _ => Iff.rfl),
    List.map_insertionSort scoreGE scoreGE eraseOverdue _
      (fun a _ b _ => Iff.rfl)]
  rw [map_eraseOverdue_records tasks profiles n1 n2]

lemma round1_zero : round1 0 = 0 := by
  unfold round1
  simp

/-- A completed task without a finish time satisfies neither the overdue
predicate nor the on-time predicate. -/
lemma completed_no_finish_predicates (now : ℚ) (t : Task)
    (hs : t.status = "completed") (hf : t.finish_time = none) :
    isOverdue now t = false ∧ completedOnTime t = false := by
  constructor
  · unfold isOverdue
    rw [if_pos hs, hf]
  · unfold completedOnTime
    rw [hf]
    simp

/-- C10: a completed task with no `finish_time` counts neither as overdue nor
as completed on time; an employee whose completed tasks all lack a finish
time therefore reports `punctualityRate` and `efficiency` strictly below 100
whenever `completedTasks > 0`, although nothing was finished late. -/
theorem c10_missing_finish_time (tasks : List Task) (profiles : List Profile) (now : ℚ)
    (r : EmployeePerformance) (hr : r ∈ calculateEmployeePerformance tasks profiles now)
    (hnf : ∀ t ∈ tasksOfUser tasks r.id, t.status = "completed" → t.finish_time = none)
    (hc : 0 < r.completedTasks) :
    r.punctualityRate < 100 ∧ r.efficiency < 100 ∧
    (∀ t ∈ tasksOfUser tasks r.id, t.status = "completed" →
      isOverdue now t = false ∧ completedOnTime t = false) := by
  obtain ⟨u, prof, hfind, rfl⟩ := mem_calc hr
  simp only [buildPerformance] at hnf hc ⊢
  have honetime : onTimeTasksOf (tasksOfUser tasks u) = 0 := by
    unfold onTimeTasksOf
    rw [List.length_eq_zero]
    rw [List.filter_eq_nil_iff]
    intro t ht hp
    have hs : t.status = "completed" := of_decide_eq_true (completedOnTime_imp t hp)
    have hf : t.finish_time = none := hnf t ht hs
    rw [(completed_no_finish_predicates now t hs hf).2] at hp
    exact absurd hp (by simp)
  have hpunct : punctualityRateOf (tasksOfUser tasks u) = 0 := by
    unfold punctualityRateOf
    rw [honetime]
    split <;> simp
  have heff : efficiencyOf (tasksOfUser tasks u) = 0 := by
    unfold efficiencyOf
    rw [honetime]
    split <;> simp
  refine ⟨?_, ?_, ?_⟩
  · rw [hpunct, round1_zero]
    norm_num
  · rw [heff, round1_zero]
    norm_num
  · intro t ht hs
    exact completed_no_finish_predicates now t hs (hnf t ht hs)

/-!  Concrete data used by counterexamples and witnesses. -/

/-- C5 (counterexample to the claim as stated): for this employee the
weighted-sum formula evaluates to `178 / 3 = 59.333...`, but the record's
`performanceScore` is the rounded `59.3`, so the emitted field does not
equal the formula value. -/
theorem c5_counterexample :
    (calculateEmployeePerformance c5Tasks [c5Profile] 0).map
        (fun r => (r.id, r.performanceScore)) = [("u1", 593 / 10)] ∧
    specScore (completionRateOf (tasksOfUser c5Tasks "u1"))
      (punctualityRateOf (tasksOfUser c5Tasks "u1"))
      (efficiencyOf (tasksOfUser c5Tasks "u1"))
      (avgCompletionTimeOf (tasksOfUser c5Tasks "u1"))
      (cancellationRateOf (tasksOfUser c5Tasks "u1")) = 178 / 3 ∧
    ((593 : ℚ) / 10) ≠ 178 / 3 := by
  refine ⟨?_, ?_, by norm_num⟩
  · simp [calculateEmployeePerformance, performanceRecords, userIdsInOrder, tasksOfUser,
      buildPerformance, displayName, rawScoreOf, ratingOf, round1, completionRateOf,
      punctualityRateOf, efficiencyOf, timeEfficiencyOf, cancellationRateOf,
      avgCompletionTimeOf, completionDurations, totalTasksOf, completedTasksOf,
      onTimeTasksOf, inProgressTasksOf, todoTasksOf, reviewTasksOf, cancelledTasksOf,
      jsOrZero, completedOnTime, isOverdue, overdueTasksOf, List.contains,
      c5Profile, c5Tasks, c5TaskA, c5TaskB, c5TaskC, c5TaskD,
      List.insertionSort, List.orderedInsert]
    norm_num [round_eq]
  · simp [specScore, tasksOfUser, completionRateOf, punctualityRateOf, efficiencyOf,
      cancellationRateOf, avgCompletionTimeOf, completionDurations, totalTasksOf,
      completedTasksOf, onTimeTasksOf, inProgressTasksOf, todoTasksOf, reviewTasksOf,
      cancelledTasksOf, jsOrZero, completedOnTime,
      c5Tasks, c5TaskA, c5TaskB, c5TaskC, c5TaskD]
    norm_num

/-- C6 (counterexample to the claim as stated): two runs on the identical
`(tasks, profiles)` input evaluated at different wall-clock instants differ
in the `overdueTasks` counter, so the output is not a function of the
`(tasks, profiles)` arguments alone. -/
theorem c6_counterexample :
    (calculateEmployeePerformance [c6Task] [c6Profile] 0).map (fun r => r.overdueTasks)
      = [0] ∧
    (calculateEmployeePerformance [c6Task] [c6Profile] 10).map (fun r => r.overdueTasks)
      = [1] ∧
    calculateEmployeePerformance [c6Task] [c6Profile] 0 ≠
      calculateEmployeePerformance [c6Task] [c6Profile] 10 := by
  have h0 : (calculateEmployeePerformance [c6Task] [c6Profile] 0).map
      (fun r => r.overdueTasks) = [0] := by
    simp [calculateEmployeePerformance, performanceRecords, userIdsInOrder, tasksOfUser,
      buildPerformance, overdueTasksOf, isOverdue, List.contains,
      c6Profile, c6Task, List.insertionSort, List.orderedInsert]
  have h10 : (calculateEmployeePerformance [c6Task] [c6Profile] 10).map
      (fun r => r.overdueTasks) = [1] := by
    simp [calculateEmployeePerformance, performanceRecords, userIdsInOrder, tasksOfUser,
      buildPerformance, overdueTasksOf, isOverdue, List.contains,
      c6Profile, c6Task, List.insertionSort, List.orderedInsert,
      (by norm_num : (5 : ℚ) < 10)]
  refine ⟨h0, h10, fun h => ?_⟩
  rw [h, h10] at h0
  exact absurd h0 (by simp)

lemma wcalc : calculateEmployeePerformance [wTask] [wProfile] 0 = [wRecord] := by
  simp [calculateEmployeePerformance, performanceRecords, userIdsInOrder, tasksOfUser,
    buildPerformance, displayName, rawScoreOf, ratingOf, round1, completionRateOf,
    punctualityRateOf, efficiencyOf, timeEfficiencyOf, cancellationRateOf,
    avgCompletionTimeOf, completionDurations, totalTasksOf, completedTasksOf,
    onTimeTasksOf, inProgressTasksOf, todoTasksOf, reviewTasksOf, cancelledTasksOf,
    jsOrZero, completedOnTime, isOverdue, overdueTasksOf, List.contains,
    wProfile, wTask, wRecord, List.insertionSort, List.orderedInsert]
  norm_num [round_eq]

lemma wmem : wRecord ∈ calculateEmployeePerformance [wTask] [wProfile] 0 := by
  rw [wcalc]
  exact List.mem_singleton_self _

/-- Witness for C5's amended theorem at the concrete one-task input. -/
theorem c5_witness :
    wRecord.performanceScore =
      round1 (specScore (completionRateOf (tasksOfUser [wTask] wRecord.id))
        (punctualityRateOf (tasksOfUser [wTask] wRecord.id))
        (efficiencyOf (tasksOfUser [wTask] wRecord.id))
        (avgCompletionTimeOf (tasksOfUser [wTask] wRecord.id))
        (cancellationRateOf (tasksOfUser [wTask] wRecord.id))) ∧
    wRecord.performanceRating =
      specRating (specScore (completionRateOf (tasksOfUser [wTask] wRecord.id))
        (punctualityRateOf (tasksOfUser [wTask] wRecord.id))
        (efficiencyOf (tasksOfUser [wTask] wRecord.id))
        (avgCompletionTimeOf (tasksOfUser [wTask] wRecord.id))
        (cancellationRateOf (tasksOfUser [wTask] wRecord.id))) :=
  c5_score_formula [wTask] [wProfile] 0 wRecord wmem

/-- Witness for C7 at the concrete one-task input. -/
theorem c7_witness :
    wRecord.cancelledTasks =
      max 0 ((wRecord.totalTasks : ℤ) -
        ((wRecord.completedTasks : ℤ) +
          (inProgressTasksOf (tasksOfUser [wTask] wRecord.id) : ℤ) +
          (todoTasksOf (tasksOfUser [wTask] wRecord.id) : ℤ) +
          (reviewTasksOf (tasksOfUser [wTask] wRecord.id) : ℤ))) ∧
    0 ≤ wRecord.cancelledTasks :=
  c7_cancelled_tasks_nonneg [wTask] [wProfile] 0 wRecord wmem

/-- Witness for C9 at the concrete one-task input. -/
theorem c9_witness :
    (0 ≤ wRecord.completionRate ∧ wRecord.completionRate ≤ 100) ∧
    (0 ≤ wRecord.punctualityRate ∧ wRecord.punctualityRate ≤ 100) ∧
    (0 ≤ wRecord.efficiency ∧ wRecord.efficiency ≤ 100) :=
  c9_rates_in_range [wTask] [wProfile] 0 wRecord wmem

/-!  Helper lemmas for the kanban transition engine. -/

lemma contains_eq_false_of_not_mem {l : List String} {a : String} (h : a ∉ l) :
    l.contains a = false := by
  rw [show l.contains a = l.elem a from rfl, List.elem_eq_mem]
  exact decide_eq_false h

/-- Updating a task with a different id never changes the looked-up status. -/
lemma statusOf_setTaskStatus_ne (l : List Task) (aid tid s : String) (h : aid ≠ tid) :
    statusOf (setTaskStatus l aid s) tid = statusOf l tid := by
  induction l with
  | nil => rfl
  | cons t ts ih =>
    unfold setTaskStatus
    by_cases ht : t.id = aid
    · rw [if_pos ht]
      have hd : decide (t.id = tid) = false := by
        simp only [decide_eq_false_iff_not]
        exact fun hh => h (ht ▸ hh)
      unfold statusOf
      simp only [List.find?, hd]
    · rw [if_neg ht]
      by_cases htid : t.id = tid
      · have hd : decide (t.id = tid) = true := by
          simp only [decide_eq_true_eq]
          exact htid
        unfold statusOf
        simp only [List.find?, hd]
      · have hd : decide (t.id = tid) = false := by
          simp only [decide_eq_false_iff_not]
          exact htid
        unfold statusOf at ih ⊢
        simp only [List.find?, hd]
        exact ih

/-- A task id that is not a column id and whose status is `completed` or the
legacy `done` resolves to the `completed` container. -/
lemma findContainer_completed (l : List Task) (tid st : String) (hcol : tid ∉ columnIds)
    (hloc : statusOf l tid = some st) (hst : st = "completed" ∨ st = "done") :
    findContainer l tid = some "completed" := by
  unfold findContainer
  rw [if_neg (by rw [contains_eq_false_of_not_mem hcol]; simp)]
  unfold statusOf at hloc
  cases hfind : l.find? (fun t => decide (t.id = tid)) with
  | none => rw [hfind] at hloc; simp at hloc
  | some t =>
    rw [hfind] at hloc
    simp only [Option.map_some', Option.some.injEq] at hloc
    simp only [hfind]
    rcases hst with h | h
    · rw [hloc, h]
      simp
    · rw [hloc, h]
      simp

/-- `handleDragOver` never changes the status of a task resolving to the
`completed` container: if it is the dragged task the move is refused, and
other tasks are never touched. -/
lemma dragOver_preserves_completed (adm : Bool) (l : List Task) (a : String)
    (o : Option String) (tid st : String) (hcol : tid ∉ columnIds)
    (hloc : statusOf l tid = some st) (hst : st = "completed" ∨ st = "done") :
    statusOf (handleDragOver adm l a o) tid = some st := by
  unfold handleDragOver
  cases o with
  | none => exact hloc
  | some oid =>
    dsimp only
    cases hac : findContainer l a with
    | none => dsimp only; exact hloc
    | some ac =>
      cases hoc : findContainer l oid with
      | none => dsimp only; exact hloc
      | some oc =>
        dsimp only
        by_cases h1 : ac = oc
        · rw [if_pos h1]; exact hloc
        · rw [if_neg h1]
          by_cases h2 : ac = "completed"
          · rw [if_pos h2]; exact hloc
          · rw [if_neg h2]
            by_cases h3 : (!adm && decide (oc = "completed")) = true
            · rw [if_pos h3]; exact hloc
            · rw [if_neg h3]
              by_cases ha : a = tid
              · exfalso
                apply h2
                rw [ha] at hac
                rw [findContainer_completed l tid st hcol hloc hst] at hac
                exact (Option.some.inj hac).symm
              · rw [statusOf_setTaskStatus_ne l a tid oc ha]
                exact hloc

/-- `handleDragEnd` never changes the status of, nor emits a commit for, a
task whose status is `completed`/`done` in both the local and the external
list. -/
lemma dragEnd_preserves_completed (adm : Bool) (tasks l : List Task) (a : String)
    (o : Option String) (tid st : String)
    (hext : statusOf tasks tid = some st) (hloc : statusOf l tid = some st) :
    statusOf (handleDragEnd adm tasks l a o).1 tid = some st ∧
    ∀ c ∈ (handleDragEnd adm tasks l a o).2.toList, c.1 ≠ tid := by
  unfold handleDragEnd
  cases o with
  | none => exact ⟨hext, by simp⟩
  | some oid =>
    dsimp only
    cases hac : findContainer l a with
    | none => dsimp only; exact ⟨hloc, by simp⟩
    | some ac =>
      cases hoc : findContainer l oid with
      | none => dsimp only; exact ⟨hloc, by simp⟩
      | some oc =>
        dsimp only
        by_cases h1 : ac = "completed" ∧ oc ≠ "completed"
        · rw [if_pos h1]; exact ⟨hext, by simp⟩
        · rw [if_neg h1]
          by_cases h2 : (!adm && decide (oc = "completed")) = true
          · rw [if_pos h2]; exact ⟨hext, by simp⟩
          · rw [if_neg h2]
            cases hft : l.find? (fun t => decide (t.id = a)) with
            | none => exact ⟨hloc, by simp⟩
            | some ft =>
              cases hot : tasks.find? (fun t => decide (t.id = a)) with
              | none => exact ⟨hloc, by simp⟩
              | some ot =>
                dsimp only
                by_cases hne : ft.status ≠ ot.status
                · rw [if_pos hne]
                  refine ⟨hloc, ?_⟩
                  intro c hc
                  simp only [Option.toList_some, List.mem_singleton] at hc
                  subst hc
                  intro haid
                  dsimp only at haid
                  apply hne
                  unfold statusOf at hloc hext
                  rw [haid] at hft hot
                  rw [hft] at hloc
                  rw [hot] at hext
                  simp only [Option.map_some', Option.some.injEq] at hloc hext
                  rw [hloc, hext]
                · rw [if_neg hne]
                  exact ⟨hloc, by simp⟩

/-- C1 (the code contradicts the claim): a task with legacy status `done` is
pushed into the separate `done` bucket — the `grouped` record initializes a
`done` key holding an array, an array is truthy, so the fallback that would
fold it into `completed` is unreachable — and the `done` bucket is rendered
by no column, so the task appears in no displayed column and in particular
not in `completed`; its stored status is indeed left unchanged. -/
theorem c1_done_task_grouping :
    (tasksByStatus [doneTask]).completed = [] ∧
    (tasksByStatus [doneTask]).done = [doneTask] ∧
    (∀ c ∈ columnIds, doneTask ∉ displayedTasks [doneTask] c) ∧
    doneTask.status = "done" := by
  refine ⟨rfl, rfl, ?_, rfl⟩
  intro c hc
  simp only [columnIds, List.mem_cons, List.not_mem_nil, or_false] at hc
  rcases hc with h | h | h | h <;> subst h <;> simp [displayedTasks, tasksByStatus,
    pushTask, doneTask]

/-- C2: when the actor is not an admin and the hover/drop target resolves to
the `completed` column, `handleDragOver` leaves the local copy unchanged and
`handleDragEnd` resets the local copy to the external tasks and emits no
commit, so every task's local status equals its external status afterwards. -/
theorem c2_nonadmin_completed_refused (tasks localTasks : List Task)
    (activeId overId ac : String)
    (hover : findContainer localTasks overId = some "completed")
    (hactive : findContainer localTasks activeId = some ac) :
    handleDragOver false localTasks activeId (some overId) = localTasks ∧
    handleDragEnd false tasks localTasks activeId (some overId) = (tasks, none) ∧
    ∀ tid, statusOf (handleDragEnd false tasks localTasks activeId (some overId)).1 tid =
      statusOf tasks tid := by
  have h1 : handleDragOver false localTasks activeId (some overId) = localTasks := by
    unfold handleDragOver
    dsimp only
    simp only [hactive, hover]
    split_ifs with g1 g2
    · rfl
    · rfl
    · exfalso
      simp at g2
  have h2 : handleDragEnd false tasks localTasks activeId (some overId) = (tasks, none) := by
    unfold handleDragEnd
    dsimp only
    simp only [hactive, hover]
    rw [if_neg (by rintro ⟨_, hx⟩; exact hx rfl)]
    rw [if_pos (by simp)]
  exact ⟨h1, h2, fun tid => by rw [h2]⟩

/-- Witness for C2: a non-admin drags the `todo` task `x` onto the
`completed` column; nothing moves and nothing is committed. -/
theorem c2_witness :
    handleDragOver false [kTask] "x" (some "completed") = [kTask] ∧
    handleDragEnd false [kTask] [kTask] "x" (some "completed") = ([kTask], none) ∧
    ∀ tid, statusOf (handleDragEnd false [kTask] [kTask] "x" (some "completed")).1 tid =
      statusOf [kTask] tid :=
  c2_nonadmin_completed_refused [kTask] [kTask] "x" "completed" "todo"
    (by simp [findContainer, columnIds])
    (by simp [findContainer, columnIds, kTask, List.find?])

/-- C3: a task (with a non-column id) whose status is `completed` or the
legacy `done` in both the external list and the local copy never changes its
status or its resolved column under any sequence of drag events, for any
actor role and any destinations, and no commit is ever emitted for it. -/
theorem c3_completed_is_terminal (isAdmin : Bool) (tasks : List Task)
    (events : List DragEvent) (s : BoardState) (tid st : String)
    (hcol : tid ∉ columnIds)
    (hext : statusOf tasks tid = some st)
    (hst : st = "completed" ∨ st = "done")
    (hloc : statusOf s.localTasks tid = some st)
    (hcom : ∀ c ∈ s.commits, c.1 ≠ tid) :
    statusOf (runEvents isAdmin tasks s events).localTasks tid = some st ∧
    findContainer (runEvents isAdmin tasks s events).localTasks tid = some "completed" ∧
    ∀ c ∈ (runEvents isAdmin tasks s events).commits, c.1 ≠ tid := by
  induction events generalizing s with
  | nil =>
    exact ⟨hloc, findContainer_completed _ _ _ hcol hloc hst, hcom⟩
  | cons e es ih =>
    have hstep : runEvents isAdmin tasks s (e :: es) =
        runEvents isAdmin tasks (stepEvent isAdmin tasks s e) es := rfl
    rw [hstep]
    cases e with
    | dragStart i => exact ih s hloc hcom
    | dragOver a o =>
      exact ih _ (dragOver_preserves_completed isAdmin s.localTasks a o tid st hcol hloc hst)
        hcom
    | dragEnd a o =>
      apply ih
      · exact (dragEnd_preserves_completed isAdmin tasks s.localTasks a o tid st hext hloc).1
      · intro c hc
        rcases List.mem_append.mp hc with h | h
        · exact hcom c h
        · exact (dragEnd_preserves_completed isAdmin tasks s.localTasks a o tid st
            hext hloc).2 c h

/-- Witness for C3: an admin repeatedly drags the completed task `y` toward
the `todo` column; it stays in `completed` and no commit is emitted. -/
theorem c3_witness :
    statusOf (runEvents true [kDoneTask] ⟨[kDoneTask], []⟩
      [DragEvent.dragStart "y", DragEvent.dragOver "y" (some "todo"),
        DragEvent.dragEnd "y" (some "todo")]).localTasks "y" = some "completed" ∧
    findContainer (runEvents true [kDoneTask] ⟨[kDoneTask], []⟩
      [DragEvent.dragStart "y", DragEvent.dragOver "y" (some "todo"),
        DragEvent.dragEnd "y" (some "todo")]).localTasks "y" = some "completed" ∧
    ∀ c ∈ (runEvents true [kDoneTask] ⟨[kDoneTask], []⟩
      [DragEvent.dragStart "y", DragEvent.dragOver "y" (some "todo"),
        DragEvent.dragEnd "y" (some "todo")]).commits, c.1 ≠ "y" :=
  c3_completed_is_terminal true [kDoneTask]
    [DragEvent.dragStart "y", DragEvent.dragOver "y" (some "todo"),
      DragEvent.dragEnd "y" (some "todo")]
    ⟨[kDoneTask], []⟩ "y" "completed"
    (by simp [columnIds])
    (by simp [statusOf, kDoneTask, List.find?])
    (Or.inl rfl)
    (by simp [statusOf, kDoneTask, List.find?])
    (by simp)

/-- C4 (amended): `handleDragEnd` emits the commit `(taskId, newStatus)`
exactly when the drop target resolves, both guards pass and the dragged
task's local status differs from its external status (keeping the optimistic
local copy); with no drop target, or when a guard fails, it discards the
local copy, resets to the external tasks and commits nothing; when the
guards pass but the status is unchanged it keeps the local copy and commits
nothing. -/
theorem c4_commit_or_revert (adm : Bool) (tasks l : List Task) (a : String) :
    (handleDragEnd adm tasks l a none = (tasks, none)) ∧
    (∀ o ac oc, findContainer l a = some ac → findContainer l o = some oc →
      ((ac = "completed" ∧ oc ≠ "completed") ∨ (adm = false ∧ oc = "completed")) →
      handleDragEnd adm tasks l a (some o) = (tasks, none)) ∧
    (∀ o ac oc ft ot, findContainer l a = some ac → findContainer l o = some oc →
      ¬(ac = "completed" ∧ oc ≠ "completed") → ¬(adm = false ∧ oc = "completed") →
      l.find? (fun t => decide (t.id = a)) = some ft →
      tasks.find? (fun t => decide (t.id = a)) = some ot →
      ft.status ≠ ot.status →
      handleDragEnd adm tasks l a (some o) = (l, some (a, ft.status))) ∧
    (∀ o ac oc ft ot, findContainer l a = some ac → findContainer l o = some oc →
      ¬(ac = "completed" ∧ oc ≠ "completed") → ¬(adm = false ∧ oc = "completed") →
      l.find? (fun t => decide (t.id = a)) = some ft →
      tasks.find? (fun t => decide (t.id = a)) = some ot →
      ft.status = ot.status →
      handleDragEnd adm tasks l a (some o) = (l, none)) := by
  refine ⟨rfl, ?_, ?_, ?_⟩
  · intro o ac oc hac hoc hguard
    unfold handleDragEnd
    dsimp only
    simp only [hac, hoc]
    rcases hguard with ⟨h1, h2⟩ | ⟨h1, h2⟩
    · rw [if_pos ⟨h1, h2⟩]
    · rw [if_neg (by rintro ⟨_, hx⟩; exact hx h2)]
      rw [if_pos (by simp [h1, h2])]
  · intro o ac oc ft ot hac hoc hg1 hg2 hft hot hne
    unfold handleDragEnd
    dsimp only
    simp only [hac, hoc]
    rw [if_neg hg1]
    rw [if_neg (by intro hb; simp at hb; exact hg2 hb)]
    simp only [hft, hot]
    rw [if_pos hne]
  · intro o ac oc ft ot hac hoc hg1 hg2 hft hot heq
    unfold handleDragEnd
    dsimp only
    simp only [hac, hoc]
    rw [if_neg hg1]
    rw [if_neg (by intro hb; simp at hb; exact hg2 hb)]
    simp only [hft, hot]
    rw [if_neg (fun hx => hx heq)]

/-- C4 (counterexample to the claim as stated): a gesture on task `A` whose
drop target resolves and whose guards pass, but whose status is unchanged,
is not a commit case; the claim then demands that the local optimistic copy
be discarded, yet the code keeps the (different) local copy unchanged. -/
theorem c4_counterexample :
    handleDragEnd false c4Tasks c4Local "A" (some "todo") = (c4Local, none) ∧
    c4Local ≠ c4Tasks := by
  constructor
  · rfl
  · simp [c4Local, c4Tasks, c4TaskBLocal, c4TaskB]

/-- Witness for C4's amended theorem: the earlier optimistic move of `B` is
committed when its gesture ends on the `todo`-column resolution with a
status differing from the external one; and a gesture with no drop target
resets. -/
theorem c4_witness :
    handleDragEnd false c4Tasks c4Local "B" (some "in_progress") =
      (c4Local, some ("B", "in_progress")) ∧
    handleDragEnd false c4Tasks c4Local "B" none = (c4Tasks, none) := by
  constructor
  · exact (c4_commit_or_revert false c4Tasks c4Local "B").2.2.1 "in_progress"
      "in_progress" "in_progress" c4TaskBLocal c4TaskB
      (by simp [findContainer, columnIds, c4Local, c4TaskA, c4TaskBLocal, List.find?])
      (by simp [findContainer, columnIds])
      (by simp)
      (by simp)
      (by simp [c4Local, c4TaskA, c4TaskBLocal, List.find?])
      (by simp [c4Tasks, c4TaskA, c4TaskB, List.find?])
      (by simp [c4TaskBLocal, c4TaskB])
  · exact (c4_commit_or_revert false c4Tasks c4Local "B").1

/-- Witness for C10 at the concrete one-task input. -/
theorem c10_witness :
    wRecord.punctualityRate < 100 ∧ wRecord.efficiency < 100 ∧
    (∀ t ∈ tasksOfUser [wTask] wRecord.id, t.status = "completed" →
      isOverdue 0 t = false ∧ completedOnTime t = false) :=
  c10_missing_finish_time [wTask] [wProfile] 0 wRecord wmem
    (by
      intro t ht _
      have : t = wTask := by
        simp [tasksOfUser, wTask, wRecord] at ht
        exact ht
      rw [this]
      rfl)
    (by simp [wRecord])

end TaskFlow
